import Mathlib

/-!
Shallow embedding of the sheet-comparison core of `main.py` (excel-schema-compare).

Cell values are scalars read from a sheet; `Value.na` models a missing cell
(pandas NaN/None).  A `Frame` models a `pandas.DataFrame` with a default
positional index: ordered column names plus rows of values, row `i` holding
the value of column `j` at position `j`.  A `KFrame` models a frame after the
index is materialised: `keyCols = []` is the default `RangeIndex` (entries
`[int i]`), otherwise the index entries are the tuples of key-column values.
Fallible pandas operations return `PyResult` (`exn` = a raised exception).
-/

inductive Value where
  | na : Value
  | str : String → Value
  | int : Int → Value
deriving DecidableEq

structure Frame where
  cols : List String
  rows : List (List Value)
deriving DecidableEq

structure KFrame where
  keyCols : List String
  index : List (List Value)
  cols : List String
  rows : List (List Value)
deriving DecidableEq

inductive PyResult (α : Type) where
  | exn : String → PyResult α
  | ok : α → PyResult α
deriving DecidableEq

/-- Python `s.startswith(p)` (used by `str.contains(r"^Unnamed")` and the
doc-prefix filter), on the character lists so that it reduces in the kernel. -/
def pyStarts (s p : String) : Bool := List.isPrefixOf p.data s.data

/-- Python `s.lower()` restricted to the ASCII case handled by `Char.toLower`. -/
def pyLower (s : String) : String := String.mk (s.data.map Char.toLower)

/-- Membership test on string lists (Python `in` on column sets). -/
def strMem (s : String) : List String → Bool
  | [] => false
  | t :: ts => if s = t then true else strMem s ts

/-- Lexicographic code-point comparison, Python's `<=` on strings. -/
def natLexLe : List Nat → List Nat → Bool
  | [], _ => true
  | _ :: _, [] => false
  | a :: as, b :: bs => if a < b then true else if b < a then false else natLexLe as bs

def strLeB (a b : String) : Bool := natLexLe (a.data.map Char.toNat) (b.data.map Char.toNat)

def insertSorted (s : String) : List String → List String
  | [] => [s]
  | t :: ts => if strLeB s t then s :: t :: ts else t :: insertSorted s ts

/-- Insertion sort by code-point order, modelling Python `sorted`. -/
def sortStrs : List String → List String
  | [] => []
  | s :: ss => insertSorted s (sortStrs ss)

/-- Python `sorted(set(l1) & set(l2))`. -/
def sortedInter (l1 l2 : List String) : List String :=
  sortStrs ((l1.filter (fun s => strMem s l2)).dedup)

/-- Python `sorted(set(l1) - set(l2))`. -/
def sortedDiff (l1 l2 : List String) : List String :=
  sortStrs ((l1.filter (fun s => !(strMem s l2))).dedup)

/-- The sheet filter of `compare_excels`:
`{s for s in xls.sheet_names if not (doc_prefix and s.startswith(doc_prefix))}`. -/
def filter_sheets (docPfx : String) (names : List String) : List String :=
  names.filter (fun s => if docPfx = "" then true else !(pyStarts s docPfx))

/-- `common = sorted(s1 & s2)` after prefix filtering. -/
def commonSheets (docPfx : String) (l1 l2 : List String) : List String :=
  sortedInter (filter_sheets docPfx l1) (filter_sheets docPfx l2)

/-- `only1 = sorted(s1 - s2)` after prefix filtering. -/
def onlySheets1 (docPfx : String) (l1 l2 : List String) : List String :=
  sortedDiff (filter_sheets docPfx l1) (filter_sheets docPfx l2)

/-- `only2 = sorted(s2 - s1)` after prefix filtering. -/
def onlySheets2 (docPfx : String) (l1 l2 : List String) : List String :=
  sortedDiff (filter_sheets docPfx l2) (filter_sheets docPfx l1)

/-- A YAML value mapped to a sheet name in the index map: `vnull` is Python
`None` (also what `dict.get` returns when the key is absent), `vstr` a single
key column, `vlist` a list of key columns. -/
inductive KeySpec where
  | vnull : KeySpec
  | vstr : String → KeySpec
  | vlist : List String → KeySpec
deriving DecidableEq

/-- Python truthiness of the resolved `index_col` (`if index_col:`). -/
def truthyKey : KeySpec → Bool
  | KeySpec.vnull => false
  | KeySpec.vstr s => !(s.data.isEmpty)
  | KeySpec.vlist l => !(l.isEmpty)

/-- The key columns denoted by an `index_col` value (`set_index` and the
missing-column loop treat a string as the one-element list). -/
def keyList : KeySpec → List String
  | KeySpec.vnull => []
  | KeySpec.vstr s => [s]
  | KeySpec.vlist l => l

/-- Python `dict.get` on the raw YAML mapping (unique keys, first match). -/
def dictGet : List (String × KeySpec) → String → Option KeySpec
  | [], _ => none
  | p :: ps, k => if p.1 = k then some p.2 else dictGet ps k

/-- Lookup in `{str(k).lower(): v for k, v in data.items()}`: a dict
comprehension keeps the last binding of a repeated key. -/
def dictGetLast (m : List (String × KeySpec)) (k : String) : Option KeySpec :=
  dictGet m.reverse k

/-- The `_lower` map built by `load_index_map`. -/
def lowerCfg (cfg : List (String × KeySpec)) : List (String × KeySpec) :=
  cfg.map (fun p => (pyLower p.1, p.2))

def keyGetD : Option KeySpec → KeySpec
  | some v => v
  | none => KeySpec.vnull

/-- The key lookup of `compare_excels`: `index_col = raw_map.get(sheet)`,
then `if index_col is None: index_col = lower_map.get(sheet.lower())`. -/
def resolveKey (cfg : List (String × KeySpec)) (sheet : String) : KeySpec :=
  let raw := keyGetD (dictGet cfg sheet)
  if raw = KeySpec.vnull then keyGetD (dictGetLast (lowerCfg cfg) (pyLower sheet)) else raw

/-- Keep the entries of the second list at the positions where the mask is
true; used to drop columns from a row of values. -/
def maskList {α : Type} : List Bool → List α → List α
  | b :: bs, x :: xs => if b then x :: maskList bs xs else maskList bs xs
  | _, _ => []

/-- The column mask of `_drop_unnamed`: `~df.columns.str.contains(r"^Unnamed")`. -/
def keepMask (cols : List String) : List Bool :=
  cols.map (fun c => !(pyStarts c "Unnamed"))

/-- `_drop_unnamed`: unchanged when the frame is empty (`df.empty`), else drop
every column whose name starts with `Unnamed`. -/
def drop_unnamed (f : Frame) : Frame :=
  if f.rows.isEmpty || f.cols.isEmpty then f
  else ⟨maskList (keepMask f.cols) f.cols, f.rows.map (maskList (keepMask f.cols))⟩

/-- `fillna("")` on one cell. -/
def fillNaVal : Value → Value
  | Value.na => Value.str ""
  | v => v

/-- `df.fillna("")` on a frame that still has its default index. -/
def fillnaF (f : Frame) : Frame := ⟨f.cols, f.rows.map (fun r => r.map fillNaVal)⟩

/-- The two normalization passes of the claims: placeholder-column stripping
followed by missing-value canonicalization. -/
def normalizeTable (f : Frame) : Frame := fillnaF (drop_unnamed f)

/-- First position of a column name, Python `df.columns.get_loc`. -/
def colIdx : List String → String → Option Nat
  | [], _ => none
  | c :: cs, t => if c = t then some 0 else (colIdx cs t).map (fun i => i + 1)

/-- Value of column `c` in row `r` laid out by `cols`. -/
def colVal (cols : List String) (r : List Value) (c : String) : Value :=
  match colIdx cols c with
  | some i => r.getD i Value.na
  | none => Value.na

/-- `df.set_index(index_col)`: the key columns move into the index and leave
the data columns. -/
def set_index (f : Frame) (ks : List String) : KFrame :=
  { keyCols := ks
    index := f.rows.map (fun r => ks.map (fun c => colVal f.cols r c))
    cols := f.cols.filter (fun c => !(strMem c ks))
    rows := f.rows.map (maskList (f.cols.map (fun c => !(strMem c ks)))) }

/-- The entries of a default `RangeIndex` of `n` rows. -/
def rangeIdx (n : Nat) : List (List Value) :=
  (List.range n).map (fun i => [Value.int (Int.ofNat i)])

/-- The untouched default `RangeIndex` when no key is installed. -/
def defaultIndex (f : Frame) : KFrame :=
  { keyCols := []
    index := rangeIdx f.rows.length
    cols := f.cols
    rows := f.rows }

/-- `df.fillna("")` as it runs in `compare_excels`: after `set_index`, so the
data cells are filled and the index is left untouched. -/
def fillnaK (k : KFrame) : KFrame :=
  { k with rows := k.rows.map (fun r => r.map fillNaVal) }

/-- Cell at row `i`, column position `j`. -/
def cellAt (k : KFrame) (i j : Nat) : Value := (k.rows.getD i []).getD j Value.na

def nRowsPair (k1 k2 : KFrame) : Nat := min k1.rows.length k2.rows.length

/-- Does row `i` hold at least one differing cell? -/
def rowDiffersAt (k1 k2 : KFrame) (i : Nat) : Bool :=
  (List.range k1.cols.length).any (fun j => decide (cellAt k1 i j ≠ cellAt k2 i j))

/-- Row positions kept by `df1.compare(df2, keep_shape=False)`. -/
def changedRowIdx (k1 k2 : KFrame) : List Nat :=
  (List.range (nRowsPair k1 k2)).filter (rowDiffersAt k1 k2)

/-- Column positions kept by `df1.compare(df2, keep_shape=False)`. -/
def changedColIdx (k1 k2 : KFrame) : List Nat :=
  (List.range k1.cols.length).filter
    (fun j => (List.range (nRowsPair k1 k2)).any (fun i => decide (cellAt k1 i j ≠ cellAt k2 i j)))

/-- `not diff.empty` for the compare result. -/
def anyCellDiff (k1 k2 : KFrame) : Bool := !(changedRowIdx k1 k2).isEmpty

/-- Names the index contributes after `diff.reset_index()`: the key columns,
or the inserted `index` column for a default `RangeIndex`. -/
def idNames (k : KFrame) : List String :=
  if k.keyCols.isEmpty then ["index"] else k.keyCols

/-- `'_'.join(str(x) for x in c if str(x) != "")`, the header flattening. -/
def joinParts : List String → String
  | [] => ""
  | [p] => p
  | p :: q :: ps => p ++ "_" ++ joinParts (q :: ps)

def joinU (parts : List String) : String :=
  joinParts (parts.filter (fun s => decide (s ≠ "")))

/-- The `(left, right)` cell pair of the compare result at `(i, j)`:
`keep_equal=False` pads an unchanged cell of a kept column with NaN. -/
def pairCells (k1 k2 : KFrame) (i j : Nat) : List Value :=
  if cellAt k1 i j = cellAt k2 i j then [Value.na, Value.na]
  else [cellAt k1 i j, cellAt k2 i j]

/-- One output row of the flattened compare result: the row identity followed
by the value pairs of every kept column. -/
def recordAt (k1 k2 : KFrame) (i : Nat) : List Value :=
  k1.index.getD i [] ++ (changedColIdx k1 k2).flatMap (pairCells k1 k2 i)

/-- `df1.compare(df2, result_names=(n1, n2), keep_shape=False)` followed by
`reset_index()` and header flattening: the `<sheet>_same` section. -/
def compareSection (n1 n2 : String) (k1 k2 : KFrame) : Frame :=
  { cols := idNames k1 ++ (changedColIdx k1 k2).flatMap
      (fun j => [joinU [k1.cols.getD j "", n1], joinU [k1.cols.getD j "", n2]])
    rows := (changedRowIdx k1 k2).map (recordAt k1 k2) }

inductive MTag where
  | both : MTag
  | leftOnly : MTag
  | rightOnly : MTag
deriving DecidableEq

def notBoth : MTag → Bool
  | MTag.both => false
  | _ => true

/-- Values of the merge keys in a row. -/
def keyVals (cols onKeys : List String) (r : List Value) : List Value :=
  onKeys.map (fun c => colVal cols r c)

/-- Values of the non-key columns of a row, in column order. -/
def restVals (cols onKeys : List String) (r : List Value) : List Value :=
  maskList (cols.map (fun c => !(strMem c onKeys))) r

def restCount (cols onKeys : List String) : Nat :=
  (cols.filter (fun c => !(strMem c onKeys))).length

/-- First-appearance deduplication: the order in which pandas factorizes the
join-key tuples when `sort=False`. -/
def firstDedupAux {α : Type} [DecidableEq α] (seen : List α) : List α → List α
  | [] => []
  | a :: as => if a ∈ seen then firstDedupAux seen as else a :: firstDedupAux (a :: seen) as

def firstDedup {α : Type} [DecidableEq α] (l : List α) : List α := firstDedupAux [] l

/-- A right-only merged row laid out in output order: NaN in the left frame's
non-key slots, the right row's key values in the key slots, then the right
frame's non-key values. -/
def rightOnlyVals (cols1 cols2 onKeys : List String) (b : List Value) : List Value :=
  cols1.map (fun c => if strMem c onKeys then colVal cols2 b c else Value.na)
    ++ restVals cols2 onKeys b

/-- The merged rows contributed by one join-key tuple `g`: each left row with
those keys paired with each matching right row, or NaN-padded when one side
has no row with those keys. -/
def mergeRowGroup (cols1 cols2 onKeys : List String) (rows1 rows2 : List (List Value))
    (g : List Value) : List (List Value × MTag) :=
  if (rows1.filter (fun a => decide (keyVals cols1 onKeys a = g))).isEmpty then
    (rows2.filter (fun b => decide (keyVals cols2 onKeys b = g))).map
      (fun b => (rightOnlyVals cols1 cols2 onKeys b, MTag.rightOnly))
  else if (rows2.filter (fun b => decide (keyVals cols2 onKeys b = g))).isEmpty then
    (rows1.filter (fun a => decide (keyVals cols1 onKeys a = g))).map
      (fun a => (a ++ List.replicate (restCount cols2 onKeys) Value.na, MTag.leftOnly))
  else
    (rows1.filter (fun a => decide (keyVals cols1 onKeys a = g))).flatMap
      (fun a => (rows2.filter (fun b => decide (keyVals cols2 onKeys b = g))).map
        (fun b => (a ++ restVals cols2 onKeys b, MTag.both)))

/-- The distinct join-key tuples in first-appearance order, left frame first. -/
def groupKeys (cols1 cols2 onKeys : List String) (rows1 rows2 : List (List Value)) :
    List (List Value) :=
  firstDedup (rows1.map (keyVals cols1 onKeys) ++ rows2.map (keyVals cols2 onKeys))

/-- Rows of `pd.merge(df1r, df2r, on=on_keys, how="outer", indicator=True)`:
pandas groups the rows by join-key tuple in first-appearance order (left keys
first, `sort=False`), each left row keeping its own column layout. -/
def mergeRows (cols1 cols2 onKeys : List String) (rows1 rows2 : List (List Value)) :
    List (List Value × MTag) :=
  (groupKeys cols1 cols2 onKeys rows1 rows2).flatMap
    (mergeRowGroup cols1 cols2 onKeys rows1 rows2)

/-- Columns of the merged frame: the left frame's columns in order (join keys
in place, overlapping non-key names suffixed `_x`), then the right frame's
non-key columns (overlaps suffixed `_y`). -/
def mergeCols (cols1 cols2 onKeys : List String) : List String :=
  cols1.map (fun c => if strMem c onKeys then c
      else if strMem c cols2 then c ++ "_x" else c)
  ++ (cols2.filter (fun c => !(strMem c onKeys))).map
      (fun c => if strMem c cols1 then c ++ "_y" else c)

structure Merged where
  cols : List String
  rows : List (List Value × MTag)
deriving DecidableEq

/-- `pd.merge(..., how="outer", indicator=True)` with the failure modes the
surrounding `try` is there for. -/
def pdMerge (f1 f2 : Frame) (onKeys : List String) : PyResult Merged :=
  if onKeys.isEmpty then PyResult.exn "No common columns to perform merge on"
  else if onKeys.any (fun c => !(strMem c f1.cols) || !(strMem c f2.cols)) then
    PyResult.exn "merge key not found"
  else if strMem "_merge" f1.cols || strMem "_merge" f2.cols then
    PyResult.exn "indicator column already exists"
  else PyResult.ok ⟨mergeCols f1.cols f2.cols onKeys,
    mergeRows f1.cols f2.cols onKeys f1.rows f2.rows⟩

/-- The `Different` label: `{"left_only": f"{name1} only", "right_only":
f"{name2} only"}` (an unmapped tag becomes NaN under `Series.map`). -/
def mtagLabel (n1 n2 : String) : MTag → Value
  | MTag.leftOnly => Value.str (n1 ++ " only")
  | MTag.rightOnly => Value.str (n2 ++ " only")
  | MTag.both => Value.na

/-- `df.reset_index()`: re-insert the index as columns.  A default
`RangeIndex` is inserted as `index`, falling back to `level_0` when a column
named `index` already exists, and raising only when that name is taken too;
named key columns raise when already present. -/
def resetIndexE (k : KFrame) : PyResult Frame :=
  if k.keyCols.isEmpty then
    if strMem "index" k.cols then
      if strMem "level_0" k.cols then PyResult.exn "cannot insert level_0, already exists"
      else PyResult.ok ⟨"level_0" :: k.cols, (k.index.zip k.rows).map (fun p => p.1 ++ p.2)⟩
    else PyResult.ok ⟨"index" :: k.cols, (k.index.zip k.rows).map (fun p => p.1 ++ p.2)⟩
  else
    if k.keyCols.any (fun c => strMem c k.cols) then
      PyResult.exn "cannot insert, already exists"
    else PyResult.ok ⟨k.keyCols ++ k.cols, (k.index.zip k.rows).map (fun p => p.1 ++ p.2)⟩

inductive Outcome where
  | skipMissing : List String → Outcome
  | skipMergeError : String → Outcome
  | noDiffSame : Outcome
  | sameSection : Frame → Outcome
  | noDiffMismatch : Outcome
  | diffSection : Frame → Outcome
deriving DecidableEq

/-- `on_keys = index_col if index_col else sorted(set(df1r.columns) &
set(df2r.columns))` on the reset frames. -/
def mergeOn (key : KeySpec) (r1 r2 : Frame) : List String :=
  if truthyKey key then keyList key else sortedInter r1.cols r2.cols

/-- `merged = merged[merged["_merge"] != "both"]` followed by the empty check,
the `Different` labelling and the `_merge` drop. -/
def labelSection (n1 n2 : String) (m : Merged) : PyResult Outcome :=
  if (m.rows.filter (fun p => notBoth p.2)).isEmpty then PyResult.ok Outcome.noDiffMismatch
  else PyResult.ok (Outcome.diffSection
    ⟨m.cols ++ ["Different"],
     (m.rows.filter (fun p => notBoth p.2)).map (fun p => p.1 ++ [mtagLabel n1 n2 p.2])⟩)

/-- The shape-mismatch branch of `compare_excels` (lines 122-145): reset both
indexes (uncaught on failure), choose the merge keys, merge inside `try`,
drop the matched rows and label the rest. -/
def mismatchBranch (n1 n2 : String) (key : KeySpec) (k1 k2 : KFrame) : PyResult Outcome :=
  match resetIndexE k1 with
  | PyResult.exn e => PyResult.exn e
  | PyResult.ok r1 =>
    match resetIndexE k2 with
    | PyResult.exn e => PyResult.exn e
    | PyResult.ok r2 =>
      match pdMerge r1 r2 (mergeOn key r1 r2) with
      | PyResult.exn e => PyResult.ok (Outcome.skipMergeError e)
      | PyResult.ok m => labelSection n1 n2 m

/-- Lines 110-145: the shape test `df1.columns.equals(df2.columns) and
df1.index.equals(df2.index)` dispatching to the cell-diff or the mismatch
branch. -/
def stage2 (n1 n2 : String) (key : KeySpec) (k1 k2 : KFrame) : PyResult Outcome :=
  if k1.cols = k2.cols ∧ k1.index = k2.index then
    if anyCellDiff k1 k2 then
      PyResult.ok (Outcome.sameSection (compareSection n1 n2 k1 k2))
    else PyResult.ok Outcome.noDiffSame
  else mismatchBranch n1 n2 key k1 k2

/-- Per-sheet processing from `_drop_unnamed` on, for an already resolved
`index_col` value. -/
def compareSheetWithKey (n1 n2 : String) (key : KeySpec) (df1 df2 : Frame) :
    PyResult Outcome :=
  let d1 := drop_unnamed df1
  let d2 := drop_unnamed df2
  if truthyKey key then
    let missing := (keyList key).filter
      (fun c => !(strMem c d1.cols) || !(strMem c d2.cols))
    if missing.isEmpty then
      stage2 n1 n2 key (fillnaK (set_index d1 (keyList key)))
        (fillnaK (set_index d2 (keyList key)))
    else PyResult.ok (Outcome.skipMissing missing)
  else stage2 n1 n2 key (fillnaK (defaultIndex d1)) (fillnaK (defaultIndex d2))

/-- One sheet of the main loop: resolve the key, then process. -/
def compareSheet (n1 n2 : String) (cfg : List (String × KeySpec)) (sheet : String)
    (df1 df2 : Frame) : PyResult Outcome :=
  compareSheetWithKey n1 n2 (resolveKey cfg sheet) df1 df2

/-- The section an outcome contributes to the report, if any. -/
def sectionOf (sheet : String) : Outcome → Option (String × Frame)
  | Outcome.sameSection f => some (sheet ++ "_same", f)
  | Outcome.diffSection f => some (sheet ++ "_diff", f)
  | _ => none

/-- A common sheet together with the results of the two `read_excel` calls
(`exn` = the read raised, caught by the first `try`). -/
structure SheetData where
  name : String
  read1 : PyResult Frame
  read2 : PyResult Frame
deriving DecidableEq

/-- The main loop over the common sheets: a failed read skips the sheet, an
uncaught exception aborts the run, everything else accumulates sections. -/
def runSheets (n1 n2 : String) (cfg : List (String × KeySpec)) :
    List SheetData → PyResult (List (String × Frame))
  | [] => PyResult.ok []
  | s :: rest =>
    match s.read1, s.read2 with
    | PyResult.ok d1, PyResult.ok d2 =>
      (match compareSheet n1 n2 cfg s.name d1 d2 with
      | PyResult.exn e => PyResult.exn e
      | PyResult.ok out =>
        match runSheets n1 n2 cfg rest with
        | PyResult.exn e => PyResult.exn e
        | PyResult.ok secs => PyResult.ok ((sectionOf s.name out).toList ++ secs))
    | _, _ => runSheets n1 n2 cfg rest

/-- Did the dispatch reach the cell-diff branch? -/
def usedCellEngine : PyResult Outcome → Bool
  | PyResult.ok Outcome.noDiffSame => true
  | PyResult.ok (Outcome.sameSection _) => true
  | _ => false

/-! ### Helper lemmas about the string utilities and sorting -/

theorem strMem_iff_mem (s : String) (l : List String) : strMem s l = true ↔ s ∈ l := by
  induction l with
  | nil => simp [strMem]
  | cons t ts ih =>
    by_cases h : s = t
    · simp [strMem, h]
    · simp [strMem, h, ih]

theorem mem_insertSorted (t s : String) (l : List String) :
    t ∈ insertSorted s l ↔ t = s ∨ t ∈ l := by
  induction l with
  | nil => simp [insertSorted]
  | cons u us ih =>
    by_cases h : strLeB s u = true
    · simp [insertSorted, h]
    · simp only [insertSorted, if_neg h, List.mem_cons, ih]
      tauto

theorem mem_sortStrs (t : String) (l : List String) : t ∈ sortStrs l ↔ t ∈ l := by
  induction l with
  | nil => simp [sortStrs]
  | cons u us ih => simp [sortStrs, mem_insertSorted, ih]

theorem natLexLe_total (a b : List Nat) : natLexLe a b = true ∨ natLexLe b a = true := by
  induction a generalizing b with
  | nil => left; simp [natLexLe]
  | cons x xs ih =>
    cases b with
    | nil => right; simp [natLexLe]
    | cons y ys =>
      rcases Nat.lt_trichotomy x y with h | h | h
      · left; simp [natLexLe, h]
      · subst h
        rcases ih ys with h2 | h2
        · left; simp [natLexLe, Nat.lt_irrefl, h2]
        · right; simp [natLexLe, Nat.lt_irrefl, h2]
      · right; simp [natLexLe, h]

theorem natLexLe_trans {a b c : List Nat} (h1 : natLexLe a b = true)
    (h2 : natLexLe b c = true) : natLexLe a c = true := by
  induction a generalizing b c with
  | nil => simp [natLexLe]
  | cons x xs ih =>
    cases b with
    | nil => simp [natLexLe] at h1
    | cons y ys =>
      cases c with
      | nil => simp [natLexLe] at h2
      | cons z zs =>
        simp only [natLexLe] at h1 h2 ⊢
        by_cases hxy : x < y
        · have hyz : ¬ z < y := by
            intro hzy
            by_cases hyz2 : y < z
            · exact Nat.lt_irrefl z (Nat.lt_trans hzy hyz2)
            · simp [hyz2, hzy] at h2
          by_cases hxz : x < z
          · simp [hxz]
          · have : z < x ∨ z = x := by omega
            rcases this with h | h
            · omega
            · omega
        · by_cases hyx : y < x
          · simp [hxy, hyx] at h1
          · have hxy2 : x = y := by omega
            subst hxy2
            by_cases hxz : x < z
            · simp [hxz]
            · by_cases hzx : z < x
              · simp [hxz, hzx] at h2
              · simp only [if_neg hxz, if_neg hzx]
                simp only [if_neg hxy] at h1
                simp only [if_neg hxz, if_neg hzx] at h2
                exact ih h1 h2

theorem strLeB_total (a b : String) : strLeB a b = true ∨ strLeB b a = true :=
  natLexLe_total _ _

theorem strLeB_trans {a b c : String} (h1 : strLeB a b = true) (h2 : strLeB b c = true) :
    strLeB a c = true := natLexLe_trans h1 h2

theorem sorted_insertSorted (s : String) (l : List String)
    (h : List.Sorted (fun a b => strLeB a b = true) l) :
    List.Sorted (fun a b => strLeB a b = true) (insertSorted s l) := by
  induction l with
  | nil => simp [insertSorted]
  | cons t ts ih =>
    rw [List.sorted_cons] at h
    by_cases hst : strLeB s t = true
    · rw [insertSorted, if_pos hst, List.sorted_cons]
      constructor
      · intro b hb
        rcases List.mem_cons.mp hb with rfl | hb
        · exact hst
        · exact strLeB_trans hst (h.1 b hb)
      · rw [List.sorted_cons]; exact h
    · rw [insertSorted, if_neg hst, List.sorted_cons]
      constructor
      · intro b hb
        rcases (mem_insertSorted b s ts).mp hb with heq | hb
        · rw [heq]
          rcases strLeB_total s t with h1 | h1
          · exact absurd h1 hst
          · exact h1
        · exact h.1 b hb
      · exact ih h.2

theorem sorted_sortStrs (l : List String) :
    List.Sorted (fun a b => strLeB a b = true) (sortStrs l) := by
  induction l with
  | nil => simp [sortStrs]
  | cons t ts ih => exact sorted_insertSorted t _ ih

theorem mem_sortedInter (s : String) (l1 l2 : List String) :
    s ∈ sortedInter l1 l2 ↔ s ∈ l1 ∧ s ∈ l2 := by
  simp [sortedInter, mem_sortStrs, List.mem_dedup, List.mem_filter, strMem_iff_mem]

theorem strMem_eq_false (s : String) (l : List String) : strMem s l = false ↔ s ∉ l := by
  rw [← strMem_iff_mem]
  simp

theorem mem_sortedDiff (s : String) (l1 l2 : List String) :
    s ∈ sortedDiff l1 l2 ↔ s ∈ l1 ∧ s ∉ l2 := by
  simp [sortedDiff, mem_sortStrs, List.mem_dedup, List.mem_filter, strMem_eq_false]

theorem mem_filter_sheets (docPfx : String) (names : List String) (s : String) :
    s ∈ filter_sheets docPfx names ↔
      s ∈ names ∧ (docPfx = "" ∨ pyStarts s docPfx = false) := by
  by_cases h : docPfx = ""
  · simp [filter_sheets, h]
  · simp [filter_sheets, h, List.mem_filter]

/-! ### C6: sheet set reconciliation -/

/-- C6: for every pair of sheet-name sets and exclusion prefix, `filter_sheets`
drops exactly the names starting with the prefix (an empty prefix drops
nothing), the comparison set is the sorted intersection and the two sorted set
differences are the sheets unique to each workbook; `(DOC)Notes` never enters
the comparison set under prefix `(DOC)`, and an empty comparison set yields an
empty report with no error. -/
theorem c6_sheet_set_reconciler :
    (∀ docPfx l1 l2 s, s ∈ commonSheets docPfx l1 l2 ↔
        (s ∈ l1 ∧ s ∈ l2 ∧ (docPfx = "" ∨ pyStarts s docPfx = false)))
  ∧ (∀ docPfx l1 l2 s, s ∈ onlySheets1 docPfx l1 l2 ↔
        (s ∈ l1 ∧ s ∉ l2 ∧ (docPfx = "" ∨ pyStarts s docPfx = false)))
  ∧ (∀ docPfx l1 l2 s, s ∈ onlySheets2 docPfx l1 l2 ↔
        (s ∈ l2 ∧ s ∉ l1 ∧ (docPfx = "" ∨ pyStarts s docPfx = false)))
  ∧ (∀ l, filter_sheets "" l = l)
  ∧ (∀ docPfx l1 l2, List.Sorted (fun a b => strLeB a b = true) (commonSheets docPfx l1 l2))
  ∧ (∀ l1 l2, "(DOC)Notes" ∉ commonSheets "(DOC)" l1 l2)
  ∧ (∀ n1 n2 cfg, runSheets n1 n2 cfg [] = PyResult.ok []) := by
  refine ⟨?_, ?_, ?_, ?_, ?_, ?_, ?_⟩
  · intro docPfx l1 l2 s
    rw [commonSheets, mem_sortedInter, mem_filter_sheets, mem_filter_sheets]
    tauto
  · intro docPfx l1 l2 s
    rw [onlySheets1, mem_sortedDiff, mem_filter_sheets, mem_filter_sheets]
    tauto
  · intro docPfx l1 l2 s
    rw [onlySheets2, mem_sortedDiff, mem_filter_sheets, mem_filter_sheets]
    tauto
  · intro l
    simp [filter_sheets]
  · intro docPfx l1 l2
    rw [commonSheets, sortedInter]
    exact sorted_sortStrs _
  · intro l1 l2 h
    rcases (mem_sortedInter _ _ _).mp h with ⟨h1, _⟩
    rcases (mem_filter_sheets _ _ _).mp h1 with ⟨_, h2 | h2⟩
    · exact absurd h2 (by decide)
    · exact absurd h2 (by decide)
  · intro n1 n2 cfg
    rfl

theorem c6_sheet_set_reconciler_witness :
    "Items" ∈ commonSheets "(DOC)" ["(DOC)Notes", "Items"] ["Items"] :=
  (c6_sheet_set_reconciler.1 "(DOC)" ["(DOC)Notes", "Items"] ["Items"] "Items").mpr
    ⟨by decide, by decide, Or.inr (by decide)⟩

/-! ### C7: key resolution -/

/-- C7: the Key Resolver tries the exact sheet name first and only on a null
result falls back to the case-insensitive map; the entry `Orders` resolves for
a sheet literally named `orders`, and with an empty configuration every sheet
resolves to null and is compared positionally. -/
theorem c7_key_resolver :
    (∀ cfg sheet v, dictGet cfg sheet = some v → v ≠ KeySpec.vnull →
        resolveKey cfg sheet = v)
  ∧ (∀ cfg sheet, keyGetD (dictGet cfg sheet) = KeySpec.vnull →
        resolveKey cfg sheet = keyGetD (dictGetLast (lowerCfg cfg) (pyLower sheet)))
  ∧ resolveKey [("Orders", KeySpec.vstr "id")] "orders" = KeySpec.vstr "id"
  ∧ (∀ sheet, resolveKey [] sheet = KeySpec.vnull)
  ∧ (∀ n1 n2 sheet df1 df2, compareSheet n1 n2 [] sheet df1 df2 =
        compareSheetWithKey n1 n2 KeySpec.vnull df1 df2) := by
  refine ⟨?_, ?_, ?_, ?_, ?_⟩
  · intro cfg sheet v h hv
    simp [resolveKey, h, keyGetD, hv]
  · intro cfg sheet h
    simp [resolveKey, h]
  · rfl
  · intro sheet
    rfl
  · intro n1 n2 sheet df1 df2
    rfl

theorem c7_key_resolver_witness :
    dictGet [("A", KeySpec.vstr "x")] "A" = some (KeySpec.vstr "x")
    ∧ resolveKey [("A", KeySpec.vstr "x")] "A" = KeySpec.vstr "x" :=
  ⟨rfl, c7_key_resolver.1 [("A", KeySpec.vstr "x")] "A" (KeySpec.vstr "x") rfl (by decide)⟩

/-! ### C10: falsy key specifications behave as an absent key -/

theorem stage2_falsy (n1 n2 : String) {k : KeySpec} (h : truthyKey k = false)
    (k1 k2 : KFrame) : stage2 n1 n2 k k1 k2 = stage2 n1 n2 KeySpec.vnull k1 k2 := by
  have h0 : truthyKey KeySpec.vnull = false := rfl
  simp [stage2, mismatchBranch, mergeOn, h, h0]

/-- C10: a falsy resolved key (empty list, empty string, explicit null) never
installs a key index: the sheet is processed exactly as with no configuration
entry at all. -/
theorem c10_falsy_key :
    (∀ n1 n2 key df1 df2, truthyKey key = false →
        compareSheetWithKey n1 n2 key df1 df2 =
          compareSheetWithKey n1 n2 KeySpec.vnull df1 df2)
  ∧ truthyKey (KeySpec.vlist []) = false
  ∧ truthyKey (KeySpec.vstr "") = false
  ∧ truthyKey KeySpec.vnull = false := by
  refine ⟨?_, rfl, rfl, rfl⟩
  intro n1 n2 key df1 df2 h
  simp only [compareSheetWithKey, h, Bool.false_eq_true, if_false]
  exact stage2_falsy n1 n2 h _ _

theorem c10_falsy_key_witness :
    truthyKey (KeySpec.vlist []) = false
    ∧ compareSheetWithKey "v1" "v2" (KeySpec.vlist []) ⟨["a"], [[Value.int 1]]⟩
        ⟨["a"], [[Value.int 1]]⟩
      = compareSheetWithKey "v1" "v2" KeySpec.vnull ⟨["a"], [[Value.int 1]]⟩
        ⟨["a"], [[Value.int 1]]⟩ :=
  ⟨rfl, c10_falsy_key.1 "v1" "v2" (KeySpec.vlist []) ⟨["a"], [[Value.int 1]]⟩
    ⟨["a"], [[Value.int 1]]⟩ rfl⟩

/-! ### C3: the shape dispatch -/

theorem mismatch_not_cell (n1 n2 : String) (key : KeySpec) (k1 k2 : KFrame) :
    usedCellEngine (mismatchBranch n1 n2 key k1 k2) = false := by
  unfold mismatchBranch
  split
  · rfl
  · split
    · rfl
    · split
      · rfl
      · unfold labelSection
        split
        · rfl
        · rfl

/-- C3 (amended): the dispatch reaches the Cell Diff Engine exactly when the
column lists and the row-identity lists of the two prepared tables are equal
as sequences, order included; otherwise the Row Alignment Engine runs. -/
theorem c3_shape_classifier (n1 n2 : String) (key : KeySpec) (k1 k2 : KFrame) :
    usedCellEngine (stage2 n1 n2 key k1 k2) = true ↔
      (k1.cols = k2.cols ∧ k1.index = k2.index) := by
  by_cases h : k1.cols = k2.cols ∧ k1.index = k2.index
  · rw [stage2, if_pos h]
    have hcell : usedCellEngine (if anyCellDiff k1 k2 = true then
        PyResult.ok (Outcome.sameSection (compareSection n1 n2 k1 k2))
      else PyResult.ok Outcome.noDiffSame) = true := by
      by_cases hd : anyCellDiff k1 k2 = true
      · rw [if_pos hd]; rfl
      · rw [if_neg hd]; rfl
    exact iff_of_true hcell h
  · rw [stage2, if_neg h]
    exact iff_of_false (by simp [mismatch_not_cell]) h

theorem c3_shape_classifier_witness :
    usedCellEngine (stage2 "v1" "v2" KeySpec.vnull ⟨[], [], ["a"], []⟩
      ⟨[], [], ["a"], []⟩) = true :=
  (c3_shape_classifier "v1" "v2" KeySpec.vnull ⟨[], [], ["a"], []⟩
    ⟨[], [], ["a"], []⟩).mpr ⟨rfl, rfl⟩

/-- C3 counterexample: two tables whose column sets and row-identity sets are
equal (order apart) are nonetheless routed to the Row Alignment Engine. -/
theorem c3_counterexample :
    ((["a", "b"] : List String).toFinset = (["b", "a"] : List String).toFinset)
  ∧ (fillnaK (defaultIndex (drop_unnamed ⟨["a", "b"], [[Value.int 1, Value.int 2]]⟩))).index
      = (fillnaK (defaultIndex (drop_unnamed ⟨["b", "a"], [[Value.int 2, Value.int 1]]⟩))).index
  ∧ compareSheetWithKey "v1" "v2" KeySpec.vnull ⟨["a", "b"], [[Value.int 1, Value.int 2]]⟩
      ⟨["b", "a"], [[Value.int 2, Value.int 1]]⟩ = PyResult.ok Outcome.noDiffMismatch
  ∧ usedCellEngine (compareSheetWithKey "v1" "v2" KeySpec.vnull
      ⟨["a", "b"], [[Value.int 1, Value.int 2]]⟩
      ⟨["b", "a"], [[Value.int 2, Value.int 1]]⟩) = false := by
  refine ⟨by decide, by decide, by decide, by decide⟩

/-! ### C4: missing key columns skip the sheet -/

/-- C4: with a truthy resolved key, the sheet is skipped with the list of key
columns missing from either table whenever that list is nonempty; only when it
is empty does processing continue, with the key values installed as the row
identity; a skipped sheet contributes no section and the loop continues. -/
theorem c4_missing_key_columns :
    (∀ n1 n2 key df1 df2, truthyKey key = true →
      (keyList key).filter (fun c => !(strMem c (drop_unnamed df1).cols)
          || !(strMem c (drop_unnamed df2).cols)) ≠ [] →
        compareSheetWithKey n1 n2 key df1 df2 = PyResult.ok (Outcome.skipMissing
          ((keyList key).filter (fun c => !(strMem c (drop_unnamed df1).cols)
            || !(strMem c (drop_unnamed df2).cols)))))
  ∧ (∀ n1 n2 key df1 df2, truthyKey key = true →
      (keyList key).filter (fun c => !(strMem c (drop_unnamed df1).cols)
          || !(strMem c (drop_unnamed df2).cols)) = [] →
        compareSheetWithKey n1 n2 key df1 df2 =
          stage2 n1 n2 key (fillnaK (set_index (drop_unnamed df1) (keyList key)))
            (fillnaK (set_index (drop_unnamed df2) (keyList key)))
        ∧ (fillnaK (set_index (drop_unnamed df1) (keyList key))).index
            = (drop_unnamed df1).rows.map (fun r => (keyList key).map
                (fun c => colVal (drop_unnamed df1).cols r c)))
  ∧ (∀ n1 n2 cfg nm df1 df2 m rest,
      compareSheet n1 n2 cfg nm df1 df2 = PyResult.ok (Outcome.skipMissing m) →
      runSheets n1 n2 cfg (⟨nm, PyResult.ok df1, PyResult.ok df2⟩ :: rest)
        = runSheets n1 n2 cfg rest) := by
  refine ⟨?_, ?_, ?_⟩
  · intro n1 n2 key df1 df2 ht hm
    have hne : ((keyList key).filter (fun c => !(strMem c (drop_unnamed df1).cols)
        || !(strMem c (drop_unnamed df2).cols))).isEmpty = false := by
      simpa [List.isEmpty_iff] using hm
    simp [compareSheetWithKey, ht, hne]
  · intro n1 n2 key df1 df2 ht hm
    have hne : ((keyList key).filter (fun c => !(strMem c (drop_unnamed df1).cols)
        || !(strMem c (drop_unnamed df2).cols))).isEmpty = true := by
      simpa [List.isEmpty_iff] using hm
    exact ⟨by simp [compareSheetWithKey, ht, hne], rfl⟩
  · intro n1 n2 cfg nm df1 df2 m rest h
    simp only [runSheets, h, sectionOf, Option.toList, List.nil_append]
    cases runSheets n1 n2 cfg rest <;> rfl

theorem c4_missing_key_columns_witness :
    compareSheetWithKey "v1" "v2" (KeySpec.vstr "id") ⟨["a"], [[Value.int 1]]⟩
      ⟨["a"], [[Value.int 1]]⟩ = PyResult.ok (Outcome.skipMissing ["id"]) :=
  c4_missing_key_columns.1 "v1" "v2" (KeySpec.vstr "id") ⟨["a"], [[Value.int 1]]⟩
    ⟨["a"], [[Value.int 1]]⟩ rfl (by decide)

/-! ### C5: which per-sheet failures are caught -/

/-- C5 (amended): read failures and merge failures are converted to a skip and
the loop continues; but an exception raised elsewhere in sheet processing
(here: `reset_index` on a table that already has columns named both `index`
and `level_0`, exhausting the fallback) propagates and aborts the run. -/
theorem c5_error_boundaries :
    (∀ n1 n2 cfg nm e r2 rest,
        runSheets n1 n2 cfg (⟨nm, PyResult.exn e, r2⟩ :: rest) = runSheets n1 n2 cfg rest)
  ∧ (∀ n1 n2 cfg nm d1 e rest,
        runSheets n1 n2 cfg (⟨nm, PyResult.ok d1, PyResult.exn e⟩ :: rest)
          = runSheets n1 n2 cfg rest)
  ∧ (∀ n1 n2 cfg nm df1 df2 e rest,
        compareSheet n1 n2 cfg nm df1 df2 = PyResult.ok (Outcome.skipMergeError e) →
        runSheets n1 n2 cfg (⟨nm, PyResult.ok df1, PyResult.ok df2⟩ :: rest)
          = runSheets n1 n2 cfg rest)
  ∧ (∀ n1 n2 cfg nm df1 df2 e rest,
        compareSheet n1 n2 cfg nm df1 df2 = PyResult.exn e →
        runSheets n1 n2 cfg (⟨nm, PyResult.ok df1, PyResult.ok df2⟩ :: rest)
          = PyResult.exn e) := by
  refine ⟨?_, ?_, ?_, ?_⟩
  · intro n1 n2 cfg nm e r2 rest
    cases r2 <;> rfl
  · intro n1 n2 cfg nm d1 e rest
    rfl
  · intro n1 n2 cfg nm df1 df2 e rest h
    simp only [runSheets, h, sectionOf, Option.toList, List.nil_append]
    cases runSheets n1 n2 cfg rest <;> rfl
  · intro n1 n2 cfg nm df1 df2 e rest h
    simp only [runSheets, h]

/-- C5 counterexample: a single sheet whose processing raises inside
`reset_index` (columns named both `index` and `level_0`, shapes mismatched,
so the fallback name is taken too) aborts the whole run. -/
theorem c5_counterexample :
    runSheets "a" "b" [] [⟨"S",
        PyResult.ok ⟨["index", "level_0"], [[Value.int 1, Value.int 2]]⟩,
        PyResult.ok ⟨["index", "level_0"],
          [[Value.int 1, Value.int 2], [Value.int 3, Value.int 4]]⟩⟩]
      = PyResult.exn "cannot insert level_0, already exists" := by decide

theorem c5_error_boundaries_witness :
    compareSheet "a" "b" [] "S" ⟨["index", "level_0"], [[Value.int 1, Value.int 2]]⟩
        ⟨["index", "level_0"], [[Value.int 1, Value.int 2], [Value.int 3, Value.int 4]]⟩
      = PyResult.exn "cannot insert level_0, already exists"
    ∧ runSheets "a" "b" []
        [⟨"S", PyResult.ok ⟨["index", "level_0"], [[Value.int 1, Value.int 2]]⟩,
          PyResult.ok ⟨["index", "level_0"],
            [[Value.int 1, Value.int 2], [Value.int 3, Value.int 4]]⟩⟩,
         ⟨"T", PyResult.exn "boom", PyResult.ok ⟨[], []⟩⟩]
      = PyResult.exn "cannot insert level_0, already exists" :=
  ⟨by decide, c5_error_boundaries.2.2.2 "a" "b" [] "S" _ _ _ _ (by decide)⟩

/-! ### C9: normalization is idempotent -/

theorem mask_map_mem {α : Type} (p : α → Bool) (cs : List α) (c : α)
    (h : c ∈ maskList (cs.map p) cs) : p c = true := by
  induction cs with
  | nil => simp [maskList] at h
  | cons c0 cs ih =>
    simp only [List.map_cons, maskList] at h
    by_cases hp : p c0 = true
    · rw [if_pos hp] at h
      rcases List.mem_cons.mp h with heq | h2
      · rw [heq]; exact hp
      · exact ih h2
    · rw [if_neg hp] at h
      exact ih h

theorem map_eq_replicate_true {α : Type} (p : α → Bool) (cs : List α)
    (h : ∀ c ∈ cs, p c = true) : cs.map p = List.replicate cs.length true := by
  induction cs with
  | nil => rfl
  | cons c0 cs ih =>
    simp only [List.map_cons, List.length_cons, List.replicate_succ]
    rw [h c0 (by simp), ih (fun c hc => h c (List.mem_cons_of_mem _ hc))]

theorem maskList_replicate_true {α : Type} (xs : List α) (n : Nat) (h : xs.length ≤ n) :
    maskList (List.replicate n true) xs = xs := by
  induction xs generalizing n with
  | nil => cases n <;> rfl
  | cons x xs ih =>
    cases n with
    | zero => simp at h
    | succ n =>
      simp only [List.replicate_succ, maskList, if_pos]
      rw [ih n (by simpa using h)]

theorem maskList_length_le_trues {α : Type} (bs : List Bool) (xs : List α) :
    (maskList bs xs).length ≤ (bs.filter (fun b => b)).length := by
  induction bs generalizing xs with
  | nil => simp [maskList]
  | cons b bs ih =>
    cases xs with
    | nil =>
      have : maskList (b :: bs) ([] : List α) = [] := rfl
      simp [this]
    | cons x xs =>
      cases b with
      | false => simpa [maskList, List.filter] using ih xs
      | true =>
        simp only [maskList, if_pos, List.length_cons, List.filter]
        exact Nat.succ_le_succ (ih xs)

theorem maskList_length_eq_trues {α : Type} (bs : List Bool) (xs : List α)
    (h : bs.length ≤ xs.length) :
    (maskList bs xs).length = (bs.filter (fun b => b)).length := by
  induction bs generalizing xs with
  | nil => simp [maskList]
  | cons b bs ih =>
    cases xs with
    | nil => simp at h
    | cons x xs =>
      cases b with
      | false => simpa [maskList, List.filter] using ih xs (by simpa using h)
      | true =>
        simp only [maskList, if_pos, List.length_cons, List.filter]
        rw [ih xs (by simpa using h)]

theorem list_map_self {α : Type} (l : List α) (f : α → α) (h : ∀ a ∈ l, f a = a) :
    l.map f = l := by
  induction l with
  | nil => rfl
  | cons a l ih =>
    simp only [List.map_cons]
    rw [h a (by simp), ih (fun b hb => h b (List.mem_cons_of_mem _ hb))]

theorem isEmpty_map {α β : Type} (l : List α) (f : α → β) :
    (l.map f).isEmpty = l.isEmpty := by
  cases l <;> rfl

theorem fillnaVal_idem (v : Value) : fillNaVal (fillNaVal v) = fillNaVal v := by
  cases v <;> rfl

theorem list_map_congr {α β : Type} (l : List α) (f g : α → β)
    (h : ∀ a ∈ l, f a = g a) : l.map f = l.map g := by
  induction l with
  | nil => rfl
  | cons a l ih =>
    simp only [List.map_cons]
    rw [h a (by simp), ih (fun b hb => h b (List.mem_cons_of_mem _ hb))]

theorem fillnaF_idem (f : Frame) : fillnaF (fillnaF f) = fillnaF f := by
  simp only [fillnaF, List.map_map, Frame.mk.injEq, true_and]
  apply list_map_congr
  intro r _
  simp only [Function.comp, List.map_map]
  apply list_map_congr
  intro v _
  simp only [Function.comp]
  exact fillnaVal_idem v

theorem drop_unnamed_fix (g : Frame)
    (hall : ∀ c ∈ g.cols, pyStarts c "Unnamed" = false)
    (hlen : ∀ r ∈ g.rows, r.length ≤ g.cols.length) :
    drop_unnamed (fillnaF g) = fillnaF g := by
  obtain ⟨cols, rows⟩ := g
  simp only [Frame.cols, Frame.rows] at hall hlen
  simp only [fillnaF]
  unfold drop_unnamed
  by_cases hguard : ((rows.map (fun r => r.map fillNaVal)).isEmpty || cols.isEmpty) = true
  · rw [if_pos hguard]
  · rw [if_neg hguard]
    have hmask : keepMask cols = List.replicate cols.length true := by
      unfold keepMask
      apply map_eq_replicate_true
      intro c hc
      simp [hall c hc]
    rw [Frame.mk.injEq]
    constructor
    · rw [hmask]
      exact maskList_replicate_true _ _ le_rfl
    · apply list_map_self
      intro r hr
      rcases List.mem_map.mp hr with ⟨r0, hr0, heq⟩
      rw [← heq, hmask]
      apply maskList_replicate_true
      simpa using hlen r0 hr0

/-- C9: normalizing a table twice (placeholder-column stripping followed by
missing-value canonicalization) gives the same result as normalizing once. -/
theorem c9_normalize_idempotent (f : Frame) :
    normalizeTable (normalizeTable f) = normalizeTable f := by
  unfold normalizeTable
  by_cases hguard : (f.rows.isEmpty || f.cols.isEmpty) = true
  · have hdf : drop_unnamed f = f := by
      unfold drop_unnamed
      rw [if_pos hguard]
    rw [hdf]
    have hguard2 : ((fillnaF f).rows.isEmpty || (fillnaF f).cols.isEmpty) = true := by
      simpa [fillnaF, isEmpty_map] using hguard
    have hdf2 : drop_unnamed (fillnaF f) = fillnaF f := by
      unfold drop_unnamed
      rw [if_pos hguard2]
    rw [hdf2, fillnaF_idem]
  · have hdf : drop_unnamed f =
        ⟨maskList (keepMask f.cols) f.cols, f.rows.map (maskList (keepMask f.cols))⟩ := by
      unfold drop_unnamed
      rw [if_neg hguard]
    have hall : ∀ c ∈ (drop_unnamed f).cols, pyStarts c "Unnamed" = false := by
      intro c hc
      rw [hdf] at hc
      have := mask_map_mem (fun c => !(pyStarts c "Unnamed")) f.cols c
        (by simpa [keepMask] using hc)
      simpa using this
    have hlen : ∀ r ∈ (drop_unnamed f).rows, r.length ≤ (drop_unnamed f).cols.length := by
      intro r hr
      rw [hdf] at hr
      rcases List.mem_map.mp hr with ⟨r0, _, heq⟩
      rw [hdf]
      rw [← heq]
      calc (maskList (keepMask f.cols) r0).length
          ≤ ((keepMask f.cols).filter (fun b => b)).length :=
            maskList_length_le_trues _ _
        _ = (maskList (keepMask f.cols) f.cols).length := by
            rw [maskList_length_eq_trues]
            simp [keepMask]
    rw [drop_unnamed_fix (drop_unnamed f) hall hlen, fillnaF_idem]

/-! ### C8: where missing values are canonicalized -/

/-- C8 (amended): after the in-code normalization, every data cell is
canonical (never NaN), but the row-identity entries of a keyed table are the
raw key values: `fillna("")` runs after `set_index`, so missing key-column
values are not canonicalized. -/
theorem c8_missing_value_canonicalization :
    (∀ f ks, (fillnaK (set_index f ks)).index
        = f.rows.map (fun r => ks.map (fun c => colVal f.cols r c)))
  ∧ (∀ f ks r v, r ∈ (fillnaK (set_index f ks)).rows → v ∈ r → v ≠ Value.na)
  ∧ (∀ f r v, r ∈ (fillnaK (defaultIndex f)).rows → v ∈ r → v ≠ Value.na) := by
  refine ⟨?_, ?_, ?_⟩
  · intro f ks
    rfl
  · intro f ks r v hr hv
    rcases List.mem_map.mp hr with ⟨r0, _, heq⟩
    rw [← heq] at hv
    rcases List.mem_map.mp hv with ⟨v0, _, heqv⟩
    rw [← heqv]
    cases v0 <;> simp [fillNaVal]
  · intro f r v hr hv
    rcases List.mem_map.mp hr with ⟨r0, _, heq⟩
    rw [← heq] at hv
    rcases List.mem_map.mp hv with ⟨v0, _, heqv⟩
    rw [← heqv]
    cases v0 <;> simp [fillNaVal]

/-- C8 counterexample: a key cell missing on the left and empty-string on the
right is reported as a difference (two labelled rows), because the key moved
into the index before `fillna("")` ran. -/
theorem c8_counterexample :
    compareSheetWithKey "v1" "v2" (KeySpec.vstr "id")
        ⟨["id", "v"], [[Value.na, Value.int 1]]⟩
        ⟨["id", "v"], [[Value.str "", Value.int 1]]⟩
      = PyResult.ok (Outcome.diffSection
          ⟨["id", "v_x", "v_y", "Different"],
           [[Value.na, Value.int 1, Value.na, Value.str "v1 only"],
            [Value.str "", Value.na, Value.int 1, Value.str "v2 only"]]⟩) := by decide

theorem c8_missing_value_canonicalization_witness :
    [Value.str ""] ∈ (fillnaK (set_index ⟨["id", "a"], [[Value.int 7, Value.na]]⟩ ["id"])).rows
    ∧ Value.str "" ≠ Value.na :=
  ⟨by decide, c8_missing_value_canonicalization.2.1
    ⟨["id", "a"], [[Value.int 7, Value.na]]⟩ ["id"] [Value.str ""] (Value.str "")
    (by decide) (by decide)⟩

/-! ### C1: the cell diff engine -/

/-- C1 (amended): when the two prepared tables have identical column sequences
and identical row-identity sequences, the compare result keeps exactly the row
positions with at least one differing cell and exactly the column positions
with at least one differing cell; within a kept record the (left, right) value
pair is populated exactly at the differing cells and NaN-padded elsewhere; the
value-pair headers are the column name suffixed with the two caller-supplied
workbook names; an empty diff produces no section; and the Items/id scenario
produces the single record (id=2, qty 3 vs 4). -/
theorem c1_cell_diff_engine :
    (∀ n1 n2 key k1 k2, k1.cols = k2.cols → k1.index = k2.index →
        (anyCellDiff k1 k2 = false → stage2 n1 n2 key k1 k2 = PyResult.ok Outcome.noDiffSame)
        ∧ (anyCellDiff k1 k2 = true → stage2 n1 n2 key k1 k2 =
            PyResult.ok (Outcome.sameSection (compareSection n1 n2 k1 k2))))
  ∧ (∀ k1 k2 i, i ∈ changedRowIdx k1 k2 ↔
        i < nRowsPair k1 k2 ∧ ∃ j, j < k1.cols.length ∧ cellAt k1 i j ≠ cellAt k2 i j)
  ∧ (∀ k1 k2 j, j ∈ changedColIdx k1 k2 ↔
        j < k1.cols.length ∧ ∃ i, i < nRowsPair k1 k2 ∧ cellAt k1 i j ≠ cellAt k2 i j)
  ∧ (∀ n1 n2 k1 k2, (compareSection n1 n2 k1 k2).rows
        = (changedRowIdx k1 k2).map (recordAt k1 k2))
  ∧ (∀ k1 k2 i, recordAt k1 k2 i
        = k1.index.getD i [] ++ (changedColIdx k1 k2).flatMap (pairCells k1 k2 i))
  ∧ (∀ k1 k2 i j, cellAt k1 i j ≠ cellAt k2 i j →
        pairCells k1 k2 i j = [cellAt k1 i j, cellAt k2 i j])
  ∧ (∀ k1 k2 i j, cellAt k1 i j = cellAt k2 i j →
        pairCells k1 k2 i j = [Value.na, Value.na])
  ∧ (∀ c nm : String, c ≠ "" → nm ≠ "" → joinU [c, nm] = c ++ "_" ++ nm)
  ∧ (∀ nm, sectionOf nm Outcome.noDiffSame = none)
  ∧ compareSheetWithKey "v1" "v2" (KeySpec.vstr "id")
      ⟨["id", "qty"], [[Value.int 1, Value.int 5], [Value.int 2, Value.int 3]]⟩
      ⟨["id", "qty"], [[Value.int 1, Value.int 5], [Value.int 2, Value.int 4]]⟩
      = PyResult.ok (Outcome.sameSection
          ⟨["id", "qty_v1", "qty_v2"], [[Value.int 2, Value.int 3, Value.int 4]]⟩) := by
  refine ⟨?_, ?_, ?_, ?_, ?_, ?_, ?_, ?_, ?_, ?_⟩
  · intro n1 n2 key k1 k2 h1 h2
    constructor
    · intro hd
      rw [stage2, if_pos ⟨h1, h2⟩, hd]
      rfl
    · intro hd
      rw [stage2, if_pos ⟨h1, h2⟩, hd]
      rfl
  · intro k1 k2 i
    simp [changedRowIdx, List.mem_filter, List.mem_range, rowDiffersAt, List.any_eq_true]
  · intro k1 k2 j
    simp [changedColIdx, List.mem_filter, List.mem_range, List.any_eq_true]
  · intro n1 n2 k1 k2
    rfl
  · intro k1 k2 i
    rfl
  · intro k1 k2 i j h
    rw [pairCells, if_neg h]
  · intro k1 k2 i j h
    rw [pairCells, if_pos h]
  · intro c nm hc hn
    have hc2 : decide (c ≠ "") = true := decide_eq_true hc
    have hn2 : decide (nm ≠ "") = true := decide_eq_true hn
    simp only [joinU, List.filter_cons, hc2, hn2, List.filter_nil, if_true]
    rfl
  · intro nm
    rfl
  · decide

theorem c1_cell_diff_engine_witness :
    anyCellDiff ⟨["id"], [[Value.int 2]], ["qty"], [[Value.int 3]]⟩
        ⟨["id"], [[Value.int 2]], ["qty"], [[Value.int 4]]⟩ = true
    ∧ stage2 "v1" "v2" (KeySpec.vstr "id")
        ⟨["id"], [[Value.int 2]], ["qty"], [[Value.int 3]]⟩
        ⟨["id"], [[Value.int 2]], ["qty"], [[Value.int 4]]⟩
      = PyResult.ok (Outcome.sameSection (compareSection "v1" "v2"
          ⟨["id"], [[Value.int 2]], ["qty"], [[Value.int 3]]⟩
          ⟨["id"], [[Value.int 2]], ["qty"], [[Value.int 4]]⟩)) :=
  ⟨by decide, (c1_cell_diff_engine.1 "v1" "v2" (KeySpec.vstr "id")
    ⟨["id"], [[Value.int 2]], ["qty"], [[Value.int 3]]⟩
    ⟨["id"], [[Value.int 2]], ["qty"], [[Value.int 4]]⟩ rfl rfl).2 (by decide)⟩

/-- C1 counterexample: two tables with equal column sets and equal row-identity
sets, but in a different column order, are not handed to the Cell Diff Engine:
the program emits a row-alignment section with two labelled rows instead of
the one cell-level record the claim predicts. -/
theorem c1_counterexample :
    ((["a", "b"] : List String).toFinset = (["b", "a"] : List String).toFinset)
  ∧ compareSheetWithKey "v1" "v2" KeySpec.vnull
      ⟨["a", "b"], [[Value.int 1, Value.int 2]]⟩
      ⟨["b", "a"], [[Value.int 3, Value.int 4]]⟩
      = PyResult.ok (Outcome.diffSection
          ⟨["index", "a", "b", "Different"],
           [[Value.int 0, Value.int 1, Value.int 2, Value.str "v1 only"],
            [Value.int 0, Value.int 4, Value.int 3, Value.str "v2 only"]]⟩) := by
  refine ⟨by decide, by decide⟩

/-! ### C2: the row alignment engine -/

theorem flatMap_singleton {α β : Type} (l : List α) (f : α → List β) (g : α → β)
    (h : ∀ a ∈ l, f a = [g a]) : l.flatMap f = l.map g := by
  induction l with
  | nil => rfl
  | cons a l ih =>
    simp only [List.flatMap_cons, List.map_cons]
    rw [h a (by simp), ih (fun b hb => h b (List.mem_cons_of_mem _ hb))]
    rfl

theorem maskList_all_false {α : Type} (bs : List Bool) (xs : List α)
    (h : ∀ b ∈ bs, b = false) : maskList bs xs = [] := by
  induction bs generalizing xs with
  | nil => cases xs <;> rfl
  | cons b bs ih =>
    cases xs with
    | nil => rfl
    | cons x xs =>
      rw [maskList, if_neg (by rw [h b (by simp)]; simp),
        ih xs (fun b2 hb2 => h b2 (List.mem_cons_of_mem _ hb2))]

theorem rangeIdx_succ (n : Nat) :
    rangeIdx (n + 1) = rangeIdx n ++ [[Value.int (Int.ofNat n)]] := by
  simp [rangeIdx, List.range_succ]

theorem rangeIdx_length (n : Nat) : (rangeIdx n).length = n := by
  simp [rangeIdx]

theorem resetRows_append (rows1 : List (List Value)) (x : List Value) :
    ((rangeIdx (rows1.length + 1)).zip (rows1 ++ [x])).map (fun p => p.1 ++ p.2)
      = ((rangeIdx rows1.length).zip rows1).map (fun p => p.1 ++ p.2)
        ++ [Value.int (Int.ofNat rows1.length) :: x] := by
  rw [rangeIdx_succ, List.zip_append (by simp [rangeIdx])]
  simp

theorem mem_resetRows (rows : List (List Value)) (a : List Value)
    (h : a ∈ ((rangeIdx rows.length).zip rows).map (fun p => p.1 ++ p.2)) :
    ∃ i, i < rows.length ∧ ∃ t, a = Value.int (Int.ofNat i) :: t := by
  rcases List.mem_map.mp h with ⟨p, hp, heq⟩
  have h1 := (List.of_mem_zip hp).1
  rw [rangeIdx] at h1
  rcases List.mem_map.mp h1 with ⟨i, hi, heqi⟩
  refine ⟨i, by simpa using hi, p.2, ?_⟩
  rw [← heq, ← heqi]
  rfl

theorem colVal_index_head (cols : List String) (i : Int) (t : List Value) :
    colVal ("index" :: cols) (Value.int i :: t) "index" = Value.int i := by
  rw [colVal, colIdx, if_pos rfl]
  rfl

theorem filter_flatMap_comm {α β : Type} (l : List α) (f : α → List β) (p : β → Bool) :
    (l.flatMap f).filter p = l.flatMap (fun a => (f a).filter p) := by
  induction l with
  | nil => rfl
  | cons a l ih =>
    simp only [List.flatMap_cons, List.filter_append, ih]

theorem flatMap_ite_singleton {α β : Type} (l : List α) (q : α → Bool) (g : α → β) :
    (l.flatMap (fun a => if q a then [g a] else [])) = (l.filter q).map g := by
  induction l with
  | nil => rfl
  | cons a l ih =>
    by_cases hq : q a = true
    · simp only [List.flatMap_cons, hq, if_true, List.filter_cons, List.map_cons, ih]
      rfl
    · have hq2 : q a = false := by
        cases hqa : q a
        · rfl
        · exact absurd hqa hq
      simp only [List.flatMap_cons, hq2, List.filter_cons, ih]
      rfl

theorem filter_isEmpty_eq_not_any {α : Type} (l : List α) (p : α → Bool) :
    (l.filter p).isEmpty = !(l.any p) := by
  induction l with
  | nil => rfl
  | cons a l ih =>
    by_cases hp : p a = true
    · simp [List.filter_cons, List.any_cons, hp]
    · have hp2 : p a = false := by
        cases hpa : p a
        · rfl
        · exact absurd hpa hp
      simp [List.filter_cons, List.any_cons, hp2, ih]

theorem map_const_replicate {α β : Type} (l : List α) (b : β) :
    l.map (fun _ => b) = List.replicate l.length b := by
  induction l with
  | nil => rfl
  | cons a l ih => simp [List.replicate_succ, ih]

theorem flatMap_congr {α β : Type} (l : List α) (f g : α → List β)
    (h : ∀ a ∈ l, f a = g a) : l.flatMap f = l.flatMap g := by
  induction l with
  | nil => rfl
  | cons a l ih =>
    simp only [List.flatMap_cons]
    rw [h a (by simp), ih (fun b hb => h b (List.mem_cons_of_mem _ hb))]

theorem flatMap_map_comp {α β γ : Type} (l : List α) (f : α → β) (g : β → List γ) :
    (l.map f).flatMap g = l.flatMap (fun a => g (f a)) := by
  induction l with
  | nil => rfl
  | cons a l ih => simp only [List.map_cons, List.flatMap_cons, ih]

theorem filter_map_comm {α β : Type} (l : List α) (f : α → β) (p : β → Bool) :
    (l.map f).filter p = (l.filter (fun a => p (f a))).map f := by
  induction l with
  | nil => rfl
  | cons a l ih =>
    by_cases hp : p (f a) = true
    · simp only [List.map_cons, List.filter_cons, hp, if_true, ih]
    · have hp2 : p (f a) = false := by
        cases hpa : p (f a)
        · rfl
        · exact absurd hpa hp
      simp only [List.map_cons, List.filter_cons, hp2, Bool.false_eq_true, if_false, ih]

theorem map_eq_forall_mem {α β : Type} (l : List α) (f g : α → β)
    (h : l.map f = l.map g) : ∀ a ∈ l, f a = g a := by
  induction l with
  | nil =>
    intro a ha
    simp at ha
  | cons x l ih =>
    simp only [List.map_cons, List.cons.injEq] at h
    intro a ha
    rcases List.mem_cons.mp ha with heq | ha2
    · rw [heq]
      exact h.1
    · exact ih h.2 a ha2

theorem fdAux_congr {α : Type} [DecidableEq α] (l : List α) :
    ∀ s1 s2 : List α, (∀ x, x ∈ s1 ↔ x ∈ s2) →
      firstDedupAux s1 l = firstDedupAux s2 l := by
  induction l with
  | nil =>
    intro s1 s2 _
    rfl
  | cons a l ih =>
    intro s1 s2 h
    by_cases ha : a ∈ s1
    · simp only [firstDedupAux]
      rw [if_pos ha, if_pos ((h a).mp ha)]
      exact ih s1 s2 h
    · simp only [firstDedupAux]
      rw [if_neg ha, if_neg (fun hc => ha ((h a).mpr hc))]
      rw [ih (a :: s1) (a :: s2) (fun x => by simp only [List.mem_cons]; rw [h x])]

theorem fdAux_split {α : Type} [DecidableEq α] (l1 : List α) :
    ∀ (seen l2 : List α),
      firstDedupAux seen (l1 ++ l2)
        = firstDedupAux seen l1 ++ firstDedupAux (l1 ++ seen) l2 := by
  induction l1 with
  | nil =>
    intro seen l2
    rfl
  | cons a l1 ih =>
    intro seen l2
    by_cases ha : a ∈ seen
    · rw [List.cons_append]
      simp only [firstDedupAux]
      rw [if_pos ha, if_pos ha, ih seen l2]
      congr 1
      apply fdAux_congr
      intro x
      simp only [List.cons_append, List.mem_cons, List.mem_append]
      constructor
      · intro hx
        tauto
      · intro hx
        rcases hx with heq | hx | hx
        · exact Or.inr (by rw [heq]; exact ha)
        · exact Or.inl hx
        · exact Or.inr hx
    · rw [List.cons_append]
      simp only [firstDedupAux]
      rw [if_neg ha, if_neg ha, ih (a :: seen) l2]
      simp only [List.cons_append]
      congr 2
      apply fdAux_congr
      intro x
      simp only [List.cons_append, List.mem_cons, List.mem_append]
      tauto

theorem fdAux_nodup_filter {α : Type} [DecidableEq α] :
    ∀ l : List α, l.Nodup → ∀ seen : List α,
      firstDedupAux seen l = l.filter (fun a => decide (a ∉ seen)) := by
  intro l
  induction l with
  | nil =>
    intro _ seen
    rfl
  | cons a l ih =>
    intro hnd seen
    rw [List.nodup_cons] at hnd
    by_cases ha : a ∈ seen
    · simp only [firstDedupAux, List.filter_cons]
      rw [if_pos ha, if_neg (by simp [ha]), ih hnd.2 seen]
    · simp only [firstDedupAux, List.filter_cons]
      rw [if_neg ha, if_pos (by simp [ha]), ih hnd.2 (a :: seen)]
      congr 1
      apply List.filter_congr
      intro x hx
      have hxa : x ≠ a := fun h => hnd.1 (by rw [← h]; exact hx)
      simp [hxa]

theorem filter_kv_unique {α κ : Type} [DecidableEq κ] :
    ∀ (rows : List α) (kv : α → κ), (rows.map kv).Nodup →
      ∀ a ∈ rows, rows.filter (fun x => decide (kv x = kv a)) = [a] := by
  intro rows kv
  induction rows with
  | nil =>
    intro _ a ha
    simp at ha
  | cons r rest ih =>
    intro hnd a ha
    rw [List.map_cons, List.nodup_cons] at hnd
    rcases List.mem_cons.mp ha with heq | ha2
    · have hkv : kv r = kv a := by rw [heq]
      rw [List.filter_cons, if_pos (by simp [hkv])]
      have hrest : rest.filter (fun x => decide (kv x = kv a)) = [] := by
        apply List.filter_eq_nil_iff.mpr
        intro x hx
        simp only [decide_eq_true_eq]
        intro hc
        exact hnd.1 (by rw [hkv, ← hc]; exact List.mem_map.mpr ⟨x, hx, rfl⟩)
      rw [hrest, heq]
    · have hne : kv r ≠ kv a := by
        intro hc
        exact hnd.1 (by rw [hc]; exact List.mem_map.mpr ⟨a, ha2, rfl⟩)
      rw [List.filter_cons, if_neg (by simp [hne]), ih hnd.2 a ha2]

theorem rangeIdx_nodup (n : Nat) : (rangeIdx n).Nodup := by
  rw [rangeIdx]
  exact (List.nodup_range n).map (fun i j hij => by simpa using hij)

theorem zip_fst_inj {α β : Type} :
    ∀ (l1 : List α) (l2 : List β), l1.Nodup →
      ∀ p q : α × β, p ∈ l1.zip l2 → q ∈ l1.zip l2 → p.1 = q.1 → p = q := by
  intro l1
  induction l1 with
  | nil =>
    intro l2 _ p q hp hq _
    simp [List.zip_nil_left] at hp
  | cons a l1 ih =>
    intro l2 hnd p q hp hq heq
    cases l2 with
    | nil => simp [List.zip_nil_right] at hp
    | cons b l2 =>
      rw [List.nodup_cons] at hnd
      rw [List.zip_cons_cons] at hp hq
      rcases List.mem_cons.mp hp with hp1 | hp2
      · rcases List.mem_cons.mp hq with hq1 | hq2
        · rw [hp1, hq1]
        · exfalso
          have h1 : q.1 ∈ l1 := (List.of_mem_zip hq2).1
          rw [← heq, hp1] at h1
          exact hnd.1 h1
      · rcases List.mem_cons.mp hq with hq1 | hq2
        · exfalso
          have h1 : p.1 ∈ l1 := (List.of_mem_zip hp2).1
          rw [heq, hq1] at h1
          exact hnd.1 h1
        · exact ih l2 hnd.2 p q hp2 hq2 heq

theorem kv_index_ne (cols K : List String) (hK : "index" ∈ K) (i m : Nat)
    (hne : i ≠ m) (t x : List Value) :
    keyVals ("index" :: cols) K (Value.int (Int.ofNat i) :: t)
      ≠ keyVals ("index" :: cols) K (Value.int (Int.ofNat m) :: x) := by
  intro h
  have h2 : K.map (fun c => colVal ("index" :: cols) (Value.int (Int.ofNat i) :: t) c)
      = K.map (fun c => colVal ("index" :: cols) (Value.int (Int.ofNat m) :: x) c) := h
  have h3 := map_eq_forall_mem K _ _ h2 "index" hK
  rw [colVal_index_head, colVal_index_head] at h3
  simp only [Value.int.injEq, Int.ofNat.injEq] at h3
  exact hne h3

/-- The positional index makes the join-key tuples of a reset frame
duplicate-free. -/
theorem wr_kv_nodup (cols K : List String) (hK : "index" ∈ K)
    (rows : List (List Value)) :
    ((((rangeIdx rows.length).zip rows).map (fun p => p.1 ++ p.2)).map
      (keyVals ("index" :: cols) K)).Nodup := by
  rw [List.map_map]
  have hzip : ((rangeIdx rows.length).zip rows).Nodup := by
    apply List.Nodup.of_map Prod.fst
    rw [List.map_fst_zip _ _ (by simp [rangeIdx_length])]
    exact rangeIdx_nodup _
  apply List.Nodup.map_on ?_ hzip
  intro p hp q hq hpq
  have hp1 : p.1 ∈ rangeIdx rows.length := (List.of_mem_zip hp).1
  have hq1 : q.1 ∈ rangeIdx rows.length := (List.of_mem_zip hq).1
  rw [rangeIdx] at hp1 hq1
  rcases List.mem_map.mp hp1 with ⟨i, _, hpi⟩
  rcases List.mem_map.mp hq1 with ⟨j, _, hqj⟩
  have hpq2 : K.map (fun c => colVal ("index" :: cols) (p.1 ++ p.2) c)
      = K.map (fun c => colVal ("index" :: cols) (q.1 ++ q.2) c) := hpq
  have h3 := map_eq_forall_mem K _ _ hpq2 "index" hK
  rw [← hpi, ← hqj, List.singleton_append, List.singleton_append,
    colVal_index_head, colVal_index_head] at h3
  simp only [Value.int.injEq, Int.ofNat.injEq] at h3
  exact zip_fst_inj _ _ (rangeIdx_nodup rows.length) p q hp hq
    (by rw [← hpi, ← hqj, h3])

theorem flatMap_filter_congr {α β : Type} (l : List α) (q : α → Bool) (f g : α → List β)
    (h : ∀ a ∈ l, q a = true → f a = g a) :
    (l.filter q).flatMap f = (l.filter q).flatMap g := by
  apply flatMap_congr
  intro a ha
  have ha2 := List.mem_filter.mp ha
  exact h a ha2.1 ha2.2

/-- The rows the Row Alignment Engine reports when each frame's join-key
tuples are duplicate-free: exactly the left rows matching no right row (in
left order, tagged left-only) followed by the right rows matching no left row
(in right order, tagged right-only). -/
theorem mergeRows_filter_notBoth (cols1 cols2 K : List String)
    (rows1 rows2 : List (List Value))
    (hU1 : (rows1.map (keyVals cols1 K)).Nodup)
    (hU2 : (rows2.map (keyVals cols2 K)).Nodup) :
    (mergeRows cols1 cols2 K rows1 rows2).filter (fun p => notBoth p.2)
      = (rows1.filter (fun a => !(rows2.any
            (fun b => decide (keyVals cols2 K b = keyVals cols1 K a))))).map
          (fun a => (a ++ List.replicate (restCount cols2 K) Value.na, MTag.leftOnly))
        ++ (rows2.filter (fun b => !(rows1.any
            (fun a => decide (keyVals cols1 K a = keyVals cols2 K b))))).map
          (fun b => (rightOnlyVals cols1 cols2 K b, MTag.rightOnly)) := by
  have hL : ∀ a ∈ rows1,
      (mergeRowGroup cols1 cols2 K rows1 rows2 (keyVals cols1 K a)).filter
          (fun p => notBoth p.2)
        = if !(rows2.any (fun b => decide (keyVals cols2 K b = keyVals cols1 K a))) then
            [(a ++ List.replicate (restCount cols2 K) Value.na, MTag.leftOnly)]
          else [] := by
    intro a ha
    have hls := filter_kv_unique rows1 (keyVals cols1 K) hU1 a ha
    unfold mergeRowGroup
    rw [hls]
    rw [if_neg (by simp)]
    by_cases hrs : (rows2.filter
        (fun b => decide (keyVals cols2 K b = keyVals cols1 K a))).isEmpty = true
    · rw [if_pos hrs, List.map_cons, List.map_nil]
      rw [filter_isEmpty_eq_not_any] at hrs
      rw [if_pos hrs]
      rfl
    · rw [if_neg hrs]
      have hboth : (([a]).flatMap (fun a2 =>
          (rows2.filter (fun b => decide (keyVals cols2 K b = keyVals cols1 K a))).map
            (fun b => (a2 ++ restVals cols2 K b, MTag.both)))).filter
              (fun p => notBoth p.2) = [] := by
        apply List.filter_eq_nil_iff.mpr
        intro p hp
        rcases List.mem_flatMap.mp hp with ⟨a2, _, hp2⟩
        rcases List.mem_map.mp hp2 with ⟨b, _, heqb⟩
        rw [← heqb]
        simp [notBoth]
      rw [hboth]
      rw [filter_isEmpty_eq_not_any] at hrs
      rw [if_neg hrs]
  rw [mergeRows, groupKeys, firstDedup,
    fdAux_split (rows1.map (keyVals cols1 K)) [] (rows2.map (keyVals cols2 K)),
    List.append_nil,
    fdAux_nodup_filter _ hU1 [],
    fdAux_nodup_filter _ hU2 (rows1.map (keyVals cols1 K))]
  rw [show ((rows1.map (keyVals cols1 K)).filter
      (fun g => decide (g ∉ ([] : List (List Value))))) = rows1.map (keyVals cols1 K)
    from List.filter_eq_self.mpr (fun g _ => by simp)]
  rw [List.flatMap_append, List.filter_append]
  congr 1
  · rw [flatMap_map_comp, filter_flatMap_comm]
    rw [flatMap_congr rows1 _ _ hL, flatMap_ite_singleton]
  · rw [filter_map_comm, flatMap_map_comp, filter_flatMap_comm]
    rw [flatMap_filter_congr rows2 _ _
        (fun b => [(rightOnlyVals cols1 cols2 K b, MTag.rightOnly)]) ?hfg,
      flatMap_singleton _ _ _ (fun b _ => rfl)]
    case hfg =>
      intro b hb hq
      simp only [decide_eq_true_eq] at hq
      have hls : rows1.filter
          (fun x => decide (keyVals cols1 K x = keyVals cols2 K b)) = [] := by
        apply List.filter_eq_nil_iff.mpr
        intro x hx
        simp only [decide_eq_true_eq]
        intro hc
        exact hq (by rw [← hc]; exact List.mem_map.mpr ⟨x, hx, rfl⟩)
      have hrs := filter_kv_unique rows2 (keyVals cols2 K) hU2 b hb
      unfold mergeRowGroup
      rw [hls, hrs]
      rw [if_pos List.isEmpty_nil]
      rfl
    congr 1
    apply List.filter_congr
    intro b _
    by_cases hmem : keyVals cols2 K b ∈ rows1.map (keyVals cols1 K)
    · rcases List.mem_map.mp hmem with ⟨a, ha, heq⟩
      have hany : rows1.any
          (fun a => decide (keyVals cols1 K a = keyVals cols2 K b)) = true :=
        List.any_eq_true.mpr ⟨a, ha, by simp [heq]⟩
      simp [hmem, hany]
    · have hany : rows1.any
          (fun a => decide (keyVals cols1 K a = keyVals cols2 K b)) = false := by
        rw [List.any_eq_false]
        intro a ha
        simp only [decide_eq_true_eq]
        intro hc
        exact hmem (by rw [← hc]; exact List.mem_map.mpr ⟨a, ha, rfl⟩)
      simp [hmem, hany]

theorem selfInter_strMem (cols : List String) :
    ∀ c ∈ ("index" :: cols),
      strMem c (sortedInter ("index" :: cols) ("index" :: cols)) = true := by
  intro c hc
  exact (strMem_iff_mem c _).mpr ((mem_sortedInter c _ _).mpr ⟨hc, hc⟩)

theorem selfInter_restVals (cols : List String) (r : List Value) :
    restVals ("index" :: cols) (sortedInter ("index" :: cols) ("index" :: cols)) r = [] := by
  apply maskList_all_false
  intro b hb
  rcases List.mem_map.mp hb with ⟨c, hc, heq⟩
  rw [← heq, selfInter_strMem cols c hc]
  rfl

theorem selfInter_mergeCols (cols : List String) :
    mergeCols ("index" :: cols) ("index" :: cols)
      (sortedInter ("index" :: cols) ("index" :: cols)) = "index" :: cols := by
  have hf : ("index" :: cols).filter
      (fun c => !(strMem c (sortedInter ("index" :: cols) ("index" :: cols)))) = [] := by
    apply List.filter_eq_nil_iff.mpr
    intro c hc
    rw [selfInter_strMem cols c hc]
    simp
  rw [mergeCols, hf, List.map_nil, List.append_nil]
  apply list_map_self
  intro c hc
  rw [if_pos (selfInter_strMem cols c hc)]

theorem selfInter_rightOnlyVals (cols : List String) (b : List Value) :
    rightOnlyVals ("index" :: cols) ("index" :: cols)
      (sortedInter ("index" :: cols) ("index" :: cols)) b
      = ("index" :: cols).map (fun c => colVal ("index" :: cols) b c) := by
  rw [rightOnlyVals, selfInter_restVals, List.append_nil]
  apply list_map_congr
  intro c hc
  rw [if_pos (selfInter_strMem cols c hc)]

/-- Aligning the index-reset table against itself plus one appended row: only
the appended row survives the both-filter. -/
theorem mergeRows_extra_row (cols : List String) (rows1 : List (List Value))
    (x : List Value) :
    (mergeRows ("index" :: cols) ("index" :: cols)
        (sortedInter ("index" :: cols) ("index" :: cols))
        (((rangeIdx rows1.length).zip rows1).map (fun p => p.1 ++ p.2))
        (((rangeIdx rows1.length).zip rows1).map (fun p => p.1 ++ p.2)
          ++ [Value.int (Int.ofNat rows1.length) :: x])).filter (fun p => notBoth p.2)
      = [(rightOnlyVals ("index" :: cols) ("index" :: cols)
            (sortedInter ("index" :: cols) ("index" :: cols))
            (Value.int (Int.ofNat rows1.length) :: x), MTag.rightOnly)] := by
  have hKidx : "index" ∈ sortedInter ("index" :: cols) ("index" :: cols) :=
    (mem_sortedInter _ _ _).mpr ⟨by simp, by simp⟩
  have hU1 := wr_kv_nodup cols (sortedInter ("index" :: cols) ("index" :: cols))
    hKidx rows1
  have hxne : ∀ a ∈ ((rangeIdx rows1.length).zip rows1).map (fun p => p.1 ++ p.2),
      keyVals ("index" :: cols) (sortedInter ("index" :: cols) ("index" :: cols)) a
        ≠ keyVals ("index" :: cols) (sortedInter ("index" :: cols) ("index" :: cols))
            (Value.int (Int.ofNat rows1.length) :: x) := by
    intro a ha
    rcases mem_resetRows rows1 a ha with ⟨i, hi, t, heqa⟩
    rw [heqa]
    exact kv_index_ne cols _ hKidx i rows1.length (Nat.ne_of_lt hi) t x
  have hU2 : ((((rangeIdx rows1.length).zip rows1).map (fun p => p.1 ++ p.2)
      ++ [Value.int (Int.ofNat rows1.length) :: x]).map
        (keyVals ("index" :: cols)
          (sortedInter ("index" :: cols) ("index" :: cols)))).Nodup := by
    rw [List.map_append, List.nodup_append]
    refine ⟨hU1, by simp, ?_⟩
    intro g hg1 hg2
    simp only [List.map_cons, List.map_nil, List.mem_singleton] at hg2
    rcases List.mem_map.mp hg1 with ⟨a, ha, heq⟩
    rw [← heq] at hg2
    exact hxne a ha hg2
  have hleft : (((rangeIdx rows1.length).zip rows1).map (fun p => p.1 ++ p.2)).filter
      (fun a => !(((((rangeIdx rows1.length).zip rows1).map (fun p => p.1 ++ p.2))
          ++ [Value.int (Int.ofNat rows1.length) :: x]).any
        (fun b => decide (keyVals ("index" :: cols)
            (sortedInter ("index" :: cols) ("index" :: cols)) b
          = keyVals ("index" :: cols)
            (sortedInter ("index" :: cols) ("index" :: cols)) a)))) = [] := by
    apply List.filter_eq_nil_iff.mpr
    intro a ha
    have hany : (((((rangeIdx rows1.length).zip rows1).map (fun p => p.1 ++ p.2))
        ++ [Value.int (Int.ofNat rows1.length) :: x]).any
          (fun b => decide (keyVals ("index" :: cols)
              (sortedInter ("index" :: cols) ("index" :: cols)) b
            = keyVals ("index" :: cols)
              (sortedInter ("index" :: cols) ("index" :: cols)) a))) = true :=
      List.any_eq_true.mpr ⟨a, List.mem_append_left _ ha, by simp⟩
    rw [hany]
    decide
  have hr1 : (((rangeIdx rows1.length).zip rows1).map (fun p => p.1 ++ p.2)).filter
      (fun b => !((((rangeIdx rows1.length).zip rows1).map (fun p => p.1 ++ p.2)).any
        (fun a => decide (keyVals ("index" :: cols)
            (sortedInter ("index" :: cols) ("index" :: cols)) a
          = keyVals ("index" :: cols)
            (sortedInter ("index" :: cols) ("index" :: cols)) b)))) = [] := by
    apply List.filter_eq_nil_iff.mpr
    intro b hb
    have hany : ((((rangeIdx rows1.length).zip rows1).map (fun p => p.1 ++ p.2)).any
        (fun a => decide (keyVals ("index" :: cols)
            (sortedInter ("index" :: cols) ("index" :: cols)) a
          = keyVals ("index" :: cols)
            (sortedInter ("index" :: cols) ("index" :: cols)) b))) = true :=
      List.any_eq_true.mpr ⟨b, hb, by simp⟩
    rw [hany]
    decide
  have hrx : ((((rangeIdx rows1.length).zip rows1).map (fun p => p.1 ++ p.2)).any
      (fun a => decide (keyVals ("index" :: cols)
          (sortedInter ("index" :: cols) ("index" :: cols)) a
        = keyVals ("index" :: cols)
          (sortedInter ("index" :: cols) ("index" :: cols))
          (Value.int (Int.ofNat rows1.length) :: x)))) = false := by
    rw [List.any_eq_false]
    intro a ha
    simp only [decide_eq_true_eq]
    exact hxne a ha
  rw [mergeRows_filter_notBoth _ _ _ _ _ hU1 hU2]
  rw [hleft, List.map_nil, List.nil_append, List.filter_append, hr1, List.nil_append,
    List.filter_cons, if_pos (by rw [hrx]; rfl), List.filter_nil,
    List.map_cons, List.map_nil]

/-- With no configured key, aligning a table against itself plus one extra row
appended at the end yields a diff section holding exactly the extra row (in
the reset frame's column layout, positional index first), labelled as
belonging to the second workbook. -/
theorem mismatch_extra_row (n1 n2 : String) (cols : List String)
    (rows1 : List (List Value)) (x : List Value)
    (hidx : strMem "index" cols = false) (hmrg : strMem "_merge" cols = false) :
    mismatchBranch n1 n2 KeySpec.vnull
        ⟨[], rangeIdx rows1.length, cols, rows1⟩
        ⟨[], rangeIdx (rows1.length + 1), cols, rows1 ++ [x]⟩
      = PyResult.ok (Outcome.diffSection
          ⟨("index" :: cols) ++ ["Different"],
           [("index" :: cols).map (fun c => colVal ("index" :: cols)
                (Value.int (Int.ofNat rows1.length) :: x) c)
            ++ [Value.str (n2 ++ " only")]]⟩) := by
  have hKidx : "index" ∈ sortedInter ("index" :: cols) ("index" :: cols) :=
    (mem_sortedInter _ _ _).mpr ⟨by simp, by simp⟩
  have hr1 : resetIndexE ⟨[], rangeIdx rows1.length, cols, rows1⟩
      = PyResult.ok ⟨"index" :: cols,
          ((rangeIdx rows1.length).zip rows1).map (fun p => p.1 ++ p.2)⟩ := by
    simp [resetIndexE, hidx]
  have hr2 : resetIndexE ⟨[], rangeIdx (rows1.length + 1), cols, rows1 ++ [x]⟩
      = PyResult.ok ⟨"index" :: cols,
          ((rangeIdx rows1.length).zip rows1).map (fun p => p.1 ++ p.2)
            ++ [Value.int (Int.ofNat rows1.length) :: x]⟩ := by
    simp [resetIndexE, hidx, resetRows_append]
  have hKne : (sortedInter ("index" :: cols) ("index" :: cols)).isEmpty = false := by
    have hne : sortedInter ("index" :: cols) ("index" :: cols) ≠ [] :=
      List.ne_nil_of_mem hKidx
    cases hKe : (sortedInter ("index" :: cols) ("index" :: cols)).isEmpty with
    | false => rfl
    | true => exact absurd (List.isEmpty_iff.mp hKe) hne
  have hpresent : ((sortedInter ("index" :: cols) ("index" :: cols)).any
      (fun c => !(strMem c ("index" :: cols)) || !(strMem c ("index" :: cols)))) = false := by
    rw [List.any_eq_false]
    intro c hc
    rw [(strMem_iff_mem c _).mpr (((mem_sortedInter c _ _).mp hc).1)]
    simp
  have hmg : strMem "_merge" ("index" :: cols) = false := by
    have hne : ("_merge" : String) ≠ "index" := by decide
    simp [strMem, hne, hmrg]
  unfold mismatchBranch
  rw [hr1, hr2]
  dsimp only
  have hmo : mergeOn KeySpec.vnull
      ⟨"index" :: cols, ((rangeIdx rows1.length).zip rows1).map (fun p => p.1 ++ p.2)⟩
      ⟨"index" :: cols, ((rangeIdx rows1.length).zip rows1).map (fun p => p.1 ++ p.2)
          ++ [Value.int (Int.ofNat rows1.length) :: x]⟩
      = sortedInter ("index" :: cols) ("index" :: cols) := rfl
  have hpd : pdMerge
      ⟨"index" :: cols, ((rangeIdx rows1.length).zip rows1).map (fun p => p.1 ++ p.2)⟩
      ⟨"index" :: cols, ((rangeIdx rows1.length).zip rows1).map (fun p => p.1 ++ p.2)
          ++ [Value.int (Int.ofNat rows1.length) :: x]⟩
      (sortedInter ("index" :: cols) ("index" :: cols))
      = PyResult.ok ⟨mergeCols ("index" :: cols) ("index" :: cols)
            (sortedInter ("index" :: cols) ("index" :: cols)),
          mergeRows ("index" :: cols) ("index" :: cols)
            (sortedInter ("index" :: cols) ("index" :: cols))
            (((rangeIdx rows1.length).zip rows1).map (fun p => p.1 ++ p.2))
            (((rangeIdx rows1.length).zip rows1).map (fun p => p.1 ++ p.2)
              ++ [Value.int (Int.ofNat rows1.length) :: x])⟩ := by
    rw [pdMerge, if_neg (by rw [hKne]; simp), if_neg (by rw [hpresent]; simp),
      if_neg (by rw [hmg]; simp)]
  rw [hmo, hpd]
  dsimp only
  unfold labelSection
  dsimp only
  rw [mergeRows_extra_row]
  rw [if_neg (by simp)]
  rw [selfInter_mergeCols, selfInter_rightOnlyVals]
  rfl

/-- C2 (amended): the Row Alignment Engine joins on the resolved key columns
or, with no key, on the sorted shared columns of the two reset tables — which
include the positional `index` column that `reset_index` inserts, so two rows
match only when they sit at the same position with every shared column equal.
The merged frame keeps the left frame's column layout (join keys in place)
followed by the right frame's non-key columns.  Matched rows are discarded;
when each frame's join-key tuples are duplicate-free (always the case here,
the positional index being a key) what remains are exactly the unmatched left
rows (in order, labelled `<name1> only`) followed by the unmatched right rows
(labelled `<name2> only`); with no matching pair the count is
`len(T1) + len(T2)`.  When T2 is T1 with one extra row appended at the end,
exactly that row is returned, labelled as T2's. -/
theorem c2_row_alignment :
    (∀ l1 l2 s, s ∈ sortedInter l1 l2 ↔ s ∈ l1 ∧ s ∈ l2)
  ∧ (∀ key r1 r2, (truthyKey key = true → mergeOn key r1 r2 = keyList key)
      ∧ (truthyKey key = false → mergeOn key r1 r2 = sortedInter r1.cols r2.cols))
  ∧ (∀ k : KFrame, k.keyCols = [] → strMem "index" k.cols = false →
      resetIndexE k = PyResult.ok
        ⟨"index" :: k.cols, (k.index.zip k.rows).map (fun p => p.1 ++ p.2)⟩)
  ∧ (∀ cols1 cols2 K rows1 rows2,
      (rows1.map (keyVals cols1 K)).Nodup →
      (rows2.map (keyVals cols2 K)).Nodup →
      (mergeRows cols1 cols2 K rows1 rows2).filter (fun p => notBoth p.2)
        = (rows1.filter (fun a => !(rows2.any
              (fun b => decide (keyVals cols2 K b = keyVals cols1 K a))))).map
            (fun a => (a ++ List.replicate (restCount cols2 K) Value.na, MTag.leftOnly))
          ++ (rows2.filter (fun b => !(rows1.any
              (fun a => decide (keyVals cols1 K a = keyVals cols2 K b))))).map
            (fun b => (rightOnlyVals cols1 cols2 K b, MTag.rightOnly)))
  ∧ (∀ n1 n2 cols1 cols2 K rows1 rows2,
      (rows1.map (keyVals cols1 K)).Nodup →
      (rows2.map (keyVals cols2 K)).Nodup →
      (∀ a ∈ rows1, ∀ b ∈ rows2, keyVals cols1 K a ≠ keyVals cols2 K b) →
      ((mergeRows cols1 cols2 K rows1 rows2).filter (fun p => notBoth p.2)).length
          = rows1.length + rows2.length
      ∧ ((mergeRows cols1 cols2 K rows1 rows2).filter (fun p => notBoth p.2)).map
            (fun p => mtagLabel n1 n2 p.2)
          = List.replicate rows1.length (Value.str (n1 ++ " only"))
            ++ List.replicate rows2.length (Value.str (n2 ++ " only")))
  ∧ (∀ n1 n2 cols rows1 x, strMem "index" cols = false → strMem "_merge" cols = false →
      mismatchBranch n1 n2 KeySpec.vnull
          ⟨[], rangeIdx rows1.length, cols, rows1⟩
          ⟨[], rangeIdx (rows1.length + 1), cols, rows1 ++ [x]⟩
        = PyResult.ok (Outcome.diffSection
            ⟨("index" :: cols) ++ ["Different"],
             [("index" :: cols).map (fun c => colVal ("index" :: cols)
                  (Value.int (Int.ofNat rows1.length) :: x) c)
              ++ [Value.str (n2 ++ " only")]]⟩))
  ∧ (∀ n : Nat, rangeIdx n ≠ rangeIdx (n + 1))
  ∧ (∀ n1 n2, mtagLabel n1 n2 MTag.leftOnly = Value.str (n1 ++ " only")
      ∧ mtagLabel n1 n2 MTag.rightOnly = Value.str (n2 ++ " only")) := by
  refine ⟨fun l1 l2 s => mem_sortedInter s l1 l2, ?_, ?_, ?_, ?_, ?_, ?_, ?_⟩
  · intro key r1 r2
    constructor
    · intro h
      rw [mergeOn, if_pos h]
    · intro h
      rw [mergeOn, if_neg (by simp [h])]
  · intro k hkc hic
    rw [resetIndexE, if_pos (by simp [hkc]), if_neg (by simp [hic])]
  · intro cols1 cols2 K rows1 rows2 hU1 hU2
    exact mergeRows_filter_notBoth cols1 cols2 K rows1 rows2 hU1 hU2
  · intro n1 n2 cols1 cols2 K rows1 rows2 hU1 hU2 hdis
    rw [mergeRows_filter_notBoth cols1 cols2 K rows1 rows2 hU1 hU2]
    have hfl : rows1.filter (fun a => !(rows2.any
        (fun b => decide (keyVals cols2 K b = keyVals cols1 K a)))) = rows1 := by
      apply List.filter_eq_self.mpr
      intro a ha
      have hany : rows2.any
          (fun b => decide (keyVals cols2 K b = keyVals cols1 K a)) = false := by
        rw [List.any_eq_false]
        intro b hb
        simp only [decide_eq_true_eq]
        intro hc
        exact hdis a ha b hb hc.symm
      rw [hany]
      rfl
    have hfr : rows2.filter (fun b => !(rows1.any
        (fun a => decide (keyVals cols1 K a = keyVals cols2 K b)))) = rows2 := by
      apply List.filter_eq_self.mpr
      intro b hb
      have hany : rows1.any
          (fun a => decide (keyVals cols1 K a = keyVals cols2 K b)) = false := by
        rw [List.any_eq_false]
        intro a ha
        simp only [decide_eq_true_eq]
        intro hc
        exact hdis a ha b hb hc
      rw [hany]
      rfl
    rw [hfl, hfr]
    constructor
    · simp
    · rw [List.map_append, List.map_map, List.map_map]
      rw [show ((fun p : List Value × MTag => mtagLabel n1 n2 p.2) ∘
          (fun a : List Value => (a ++ List.replicate (restCount cols2 K) Value.na,
            MTag.leftOnly)))
        = (fun _ : List Value => Value.str (n1 ++ " only")) from rfl]
      rw [show ((fun p : List Value × MTag => mtagLabel n1 n2 p.2) ∘
          (fun b : List Value => (rightOnlyVals cols1 cols2 K b, MTag.rightOnly)))
        = (fun _ : List Value => Value.str (n2 ++ " only")) from rfl]
      rw [map_const_replicate, map_const_replicate]
  · intro n1 n2 cols rows1 x hidx hmrg
    exact mismatch_extra_row n1 n2 cols rows1 x hidx hmrg
  · intro n h
    have := congrArg List.length h
    rw [rangeIdx_length, rangeIdx_length] at this
    omega
  · intro n1 n2
    exact ⟨rfl, rfl⟩

theorem c2_row_alignment_witness :
    strMem "index" ["a"] = false
    ∧ mismatchBranch "v1" "v2" KeySpec.vnull
        ⟨[], rangeIdx ([[Value.int 10]] : List (List Value)).length, ["a"], [[Value.int 10]]⟩
        ⟨[], rangeIdx (([[Value.int 10]] : List (List Value)).length + 1), ["a"],
          [[Value.int 10]] ++ [[Value.int 20]]⟩
      = PyResult.ok (Outcome.diffSection
          ⟨("index" :: ["a"]) ++ ["Different"],
           [("index" :: ["a"]).map (fun c => colVal ("index" :: ["a"])
                (Value.int (Int.ofNat ([[Value.int 10]] : List (List Value)).length)
                  :: [Value.int 20]) c)
            ++ [Value.str ("v2" ++ " only")]]⟩) :=
  ⟨rfl, c2_row_alignment.2.2.2.2.2.1 "v1" "v2" ["a"] [[Value.int 10]] [Value.int 20]
    rfl rfl⟩

/-- C2 counterexample: T2 equal to T1 except one extra row inserted at the
front.  The claim predicts exactly the extra row; the merge keys include the
positional `index` column, so the shifted duplicate row no longer matches and
three rows are reported. -/
theorem c2_counterexample :
    compareSheetWithKey "v1" "v2" KeySpec.vnull ⟨["a"], [[Value.int 10]]⟩
        ⟨["a"], [[Value.int 20], [Value.int 10]]⟩
      = PyResult.ok (Outcome.diffSection
          ⟨["index", "a", "Different"],
           [[Value.int 0, Value.int 10, Value.str "v1 only"],
            [Value.int 0, Value.int 20, Value.str "v2 only"],
            [Value.int 1, Value.int 10, Value.str "v2 only"]]⟩) := by decide

theorem c9_normalize_idempotent_witness :
    normalizeTable (normalizeTable ⟨["Unnamed: 0", "a"], [[Value.na, Value.int 1]]⟩)
      = normalizeTable ⟨["Unnamed: 0", "a"], [[Value.na, Value.int 1]]⟩ :=
  c9_normalize_idempotent ⟨["Unnamed: 0", "a"], [[Value.na, Value.int 1]]⟩
